import Mathlib

/-!
Shallow embedding of the `ModuleInfo` class of `atest/module_info.py`.

The Python class holds two dictionaries: `name_to_module_info` (module name →
attribute dictionary, loaded from `module-info.json`) and the derived
`path_to_module_info` (source path → list of attribute dictionaries), plus a
`root_dir` string.  Dictionaries are modelled as association lists in
insertion order; an attribute dictionary is modelled as a structure whose
fields are `Option`-valued so that an absent key, Python `.get` defaults and
Python dictionary truthiness are all expressible.  Filesystem probes
(`os.path.isfile`) and the external robolectric-class predicate
(`test_finder_utils.is_robolectric_module`, whose source is not part of this
repository) are parameters collected in an `Env` structure.
-/

/-- One module's attribute dictionary, as stored in `module-info.json`.  Each
field models one key read by `module_info.py` (`module_name`, `path`,
`installed`, `compatibility_suites`, `test_config`, `auto_test_config`, and
the class/category marker consumed by the external robolectric predicate).
`none` models an absent key.  `extraKeys` records whether the dictionary
carries further, unmodelled keys; it matters only for dictionary
truthiness (`if not mod_info`). -/
structure ModInfo where
  name : Option String := none
  path : Option (List String) := none
  installed : Option (List String) := none
  compatibilitySuites : Option (List String) := none
  testConfig : Option (List String) := none
  autoTestConfig : Option (List Bool) := none
  moduleClass : Option (List String) := none
  extraKeys : Bool := false
deriving DecidableEq

/-- Python truthiness of the attribute dictionary: truthy iff it has at least
one key. -/
def ModInfo.truthy (m : ModInfo) : Bool :=
  m.name.isSome || m.path.isSome || m.installed.isSome ||
  m.compatibilitySuites.isSome || m.testConfig.isSome ||
  m.autoTestConfig.isSome || m.moduleClass.isSome || m.extraKeys

/-- Python truthiness of an optional string (`None` and `""` are falsy). -/
def truthyStr : Option String → Bool
  | none => false
  | some s => !(s == "")

/-- External collaborators of the class: `isfile` models `os.path.isfile`,
`robo` the record-level robolectric capability check. -/
structure Env where
  isfile : String → Bool
  robo : ModInfo → Bool

/-- Modelled from the spec: `test_finder_utils.is_robolectric_module`, whose
source is not in this repository, is "an external collaborator's predicate,
consumed here as a capability check: is this record a robolectric module"
over the record's class/category marker; on a missing record it cannot
classify anything, so it yields false. -/
def is_robolectric_module (env : Env) : Option ModInfo → Bool
  | none => false
  | some m => env.robo m

/-- `os.path.join` for the relative paths the class joins under its root. -/
def pathJoin (a b : String) : String := a ++ "/" ++ b

/-- `constants.MODULE_CONFIG`: the conventional test-config file name. -/
def MODULE_CONFIG : String := "AndroidTest.xml"

/-- Python `dict.get(k)` on an insertion-ordered association list. -/
def dlookup {β : Type} (k : String) : List (String × β) → Option β
  | [] => none
  | (k₀, v) :: rest => if k₀ == k then some v else dlookup k rest

/-- Append `m` to the bucket of path `p`, creating the bucket at the end if
absent: the two branches of `if path in path_to_module_info` in
`_get_path_to_module_info`. -/
def pmAppend (pti : List (String × List ModInfo)) (p : String) (m : ModInfo) :
    List (String × List ModInfo) :=
  match pti with
  | [] => [(p, [m])]
  | (q, ms) :: rest =>
    if q == p then (q, ms ++ [m]) :: rest else (q, ms) :: pmAppend rest p m

/-- The body of the outer loop of `_get_path_to_module_info` for one
`(mod_name, mod_info)` item: skip the entry unless `mod_name` equals
`mod_info.get(MODULE_NAME, '')`; otherwise, for each listed path, set the
record's name to the iteration key and append it to that path's bucket. -/
def addEntry (acc : List (String × List ModInfo)) (mod_name : String)
    (mod_info : ModInfo) : List (String × List ModInfo) :=
  if mod_name == mod_info.name.getD "" then
    (mod_info.path.getD []).foldl
      (fun a p => pmAppend a p { mod_info with name := some mod_name }) acc
  else acc

/-- `ModuleInfo._get_path_to_module_info`: fold the loop body over the name
index in iteration order, starting from the empty dictionary. -/
def get_path_to_module_info (nmi : List (String × ModInfo)) :
    List (String × List ModInfo) :=
  nmi.foldl (fun acc kv => addEntry acc kv.1 kv.2) []

/-- The in-place effect of `mod_info[MODULE_NAME] = mod_name` on one name
index entry: the assignment sits inside the per-path loop, after the variant
filter, so it fires iff the entry passes the filter and lists at least one
path. -/
def normRecord (k : String) (m : ModInfo) : ModInfo :=
  if k == m.name.getD "" && !(m.path.getD []).isEmpty then
    { m with name := some k }
  else m

/-- The name index as it stands after `_get_path_to_module_info` has run
(the Python code mutates the record dictionaries in place while building the
path index). -/
def normalizeNames (nmi : List (String × ModInfo)) : List (String × ModInfo) :=
  nmi.map (fun kv => (kv.1, normRecord kv.1 kv.2))

/-- The two indexes and the root directory held by a `ModuleInfo` object. -/
structure ModuleInfo where
  name_to_module_info : List (String × ModInfo)
  path_to_module_info : List (String × List ModInfo)
  root_dir : String
deriving DecidableEq

/-- `ModuleInfo.__init__` after the raw mapping has been loaded: keep the
(mutated) name index, derive the path index, capture the root directory. -/
def ModuleInfo.build (raw : List (String × ModInfo)) (root : String) :
    ModuleInfo :=
  { name_to_module_info := normalizeNames raw
  , path_to_module_info := get_path_to_module_info raw
  , root_dir := root }

/-- `self.name_to_module_info.get(x)` where `x` may be Python `None` (every
stored key is a string, so `None` never hits). -/
def get_module_info_opt (mi : ModuleInfo) (n : Option String) :
    Option ModInfo :=
  match n with
  | none => none
  | some s => dlookup s mi.name_to_module_info

/-- `ModuleInfo.is_module`. -/
def ModuleInfo.is_module (mi : ModuleInfo) (n : Option String) : Bool :=
  (get_module_info_opt mi n).isSome

/-- `ModuleInfo.get_module_info`. -/
def ModuleInfo.get_module_info (mi : ModuleInfo) (n : Option String) :
    Option ModInfo :=
  get_module_info_opt mi n

/-- `ModuleInfo.get_paths`: the record's `path` list, or `[]` when the module
is unknown or its record dictionary is falsy. -/
def ModuleInfo.get_paths (mi : ModuleInfo) (n : String) : List String :=
  match dlookup n mi.name_to_module_info with
  | some info => if info.truthy then info.path.getD [] else []
  | none => []

/-- `ModuleInfo.get_module_names`: the `module_name` value of every record in
the bucket of `rel_module_path` (an absent name key yields Python `None`). -/
def ModuleInfo.get_module_names (mi : ModuleInfo) (rel_module_path : String) :
    List (Option String) :=
  ((dlookup rel_module_path mi.path_to_module_info).getD []).map
    (fun m => m.name)

/-- `ModuleInfo.is_suite_in_compatibility_suites`. -/
def is_suite_in_compatibility_suites (suite : String) (mod_info : ModInfo) :
    Bool :=
  (mod_info.compatibilitySuites.getD []).contains suite

/-- `ModuleInfo.get_robolectric_test_name`: look the module up; on a falsy
record return `None`; otherwise scan the bucket of the first listed path and
return the first name whose record the external predicate classifies as
robolectric. -/
def ModuleInfo.get_robolectric_test_name (mi : ModuleInfo) (env : Env)
    (module_name : Option String) : Option String :=
  match get_module_info_opt mi module_name with
  | none => none
  | some info =>
    if info.truthy then
      match info.path.getD [] with
      | [] => none
      | p :: _ =>
        (List.find?
          (fun mod => is_robolectric_module env (get_module_info_opt mi mod))
          (mi.get_module_names p)).join
    else none

/-- `ModuleInfo.is_robolectric_test`: the record itself is robolectric
(guarded by `mod_info and ...`), or a sibling resolves via
`get_robolectric_test_name` (string truthiness of the result). -/
def ModuleInfo.is_robolectric_test (mi : ModuleInfo) (env : Env)
    (module_name : Option String) : Bool :=
  let mod_info := get_module_info_opt mi module_name
  if (match mod_info with
      | some m => m.truthy && is_robolectric_module env (some m)
      | none => false) then true
  else if truthyStr (mi.get_robolectric_test_name env module_name) then true
  else false

/-- `ModuleInfo.is_auto_gen_test_config`: membership test, then read
`auto_test_config` with default `[]`, then Python `l and l[0]`. -/
def ModuleInfo.is_auto_gen_test_config (mi : ModuleInfo)
    (module_name : Option String) : Bool :=
  if mi.is_module module_name then
    match get_module_info_opt mi module_name with
    | some mod_info =>
      match mod_info.autoTestConfig.getD [] with
      | [] => false
      | b :: _ => b
    | none => false
  else false

/-- `ModuleInfo.has_test_config`: any explicit `test_config` entry that is a
file under the root, else the conventional `AndroidTest.xml` under any listed
path, else the auto-generated-config flag looked up by name. -/
def ModuleInfo.has_test_config (mi : ModuleInfo) (env : Env)
    (mod_info : ModInfo) : Bool :=
  (mod_info.testConfig.getD []).any
    (fun tc => env.isfile (pathJoin mi.root_dir tc)) ||
  (mod_info.path.getD []).any
    (fun p => env.isfile (pathJoin (pathJoin mi.root_dir p) MODULE_CONFIG)) ||
  mi.is_auto_gen_test_config mod_info.name

/-- `ModuleInfo.is_testable_module`: falsy record → false; installed with a
test config → true; else robolectric by name → true; else false. -/
def ModuleInfo.is_testable_module (mi : ModuleInfo) (env : Env)
    (mod_info : Option ModInfo) : Bool :=
  match mod_info with
  | none => false
  | some m =>
    if !m.truthy then false
    else if !(m.installed.getD []).isEmpty && mi.has_test_config env m then
      true
    else if mi.is_robolectric_test env m.name then true
    else false

/-- `ModuleInfo.get_testable_modules`: one scan of the name index collecting
the names of testable records into a set, filtered by suite membership when
`suite` is truthy. -/
def ModuleInfo.get_testable_modules (mi : ModuleInfo) (env : Env)
    (suite : Option String) : Finset (Option String) :=
  mi.name_to_module_info.foldl
    (fun acc kv =>
      if mi.is_testable_module env (some kv.2) then
        if truthyStr suite then
          if is_suite_in_compatibility_suites (suite.getD "") kv.2 then
            insert kv.2.name acc
          else acc
        else insert kv.2.name acc
      else acc)
    (∅ : Finset (Option String))

/-- Spec-side restatement of the testability rule of §4.3: truthy record, and
either (installed and has a test config) or robolectric by name. -/
def specIsTestable (mi : ModuleInfo) (env : Env) : Option ModInfo → Bool
  | none => false
  | some m =>
    m.truthy &&
      ((!(m.installed.getD []).isEmpty && mi.has_test_config env m) ||
        mi.is_robolectric_test env m.name)

/-- Spec-side source (1) of `hasTestConfig`: an explicit `test_config` entry
that exists as a file under the root. -/
def specExplicitConfig (env : Env) (root : String) (m : ModInfo) : Bool :=
  (m.testConfig.getD []).any (fun tc => env.isfile (pathJoin root tc))

/-- Spec-side source (2) of `hasTestConfig`: a conventional `AndroidTest.xml`
under one of the module's paths. -/
def specConventionConfig (env : Env) (root : String) (m : ModInfo) : Bool :=
  (m.path.getD []).any
    (fun p => env.isfile (pathJoin (pathJoin root p) MODULE_CONFIG))

/-- Spec-side restatement of `getRobolectricTestName` (§4.4): unknown or
pathless module → null; otherwise scan the bucket of the first path only and
return the first name classified robolectric. -/
def specRoboName (mi : ModuleInfo) (env : Env) (n : String) : Option String :=
  match dlookup n mi.name_to_module_info with
  | none => none
  | some r =>
    match r.path.getD [] with
    | [] => none
    | p :: _ =>
      (List.find?
        (fun mod => is_robolectric_module env (get_module_info_opt mi mod))
        (mi.get_module_names p)).join

/-- Spec-side restatement of `isAutoGenTestConfig` (§4.3): false on unknown
module or absent/empty field, else the first element. -/
def specAutoGen (mi : ModuleInfo) (n : String) : Bool :=
  match dlookup n mi.name_to_module_info with
  | none => false
  | some m =>
    match m.autoTestConfig with
    | none => false
    | some [] => false
    | some (b :: _) => b

/-- The bucket stored for path `p`, empty when no bucket exists. -/
def bucket (pti : List (String × List ModInfo)) (p : String) :
    List ModInfo :=
  (dlookup p pti).getD []

/-- Concrete records and states used by the witnesses below; they replay the
worked scenario of spec §8. -/
def fooRec : ModInfo :=
  { name := some "Foo", path := some ["a/b"], installed := some ["x"],
    testConfig := some ["a/b/AndroidTest.xml"],
    compatibilitySuites := some ["sweet"] }

def roboRec : ModInfo :=
  { name := some "FooTests_Robo", path := some ["a/b"],
    moduleClass := some ["ROBOLECTRIC_TEST"] }

def mi0 : ModuleInfo :=
  ModuleInfo.build [("Foo", fooRec), ("FooTests_Robo", roboRec)] "root"

def env0 : Env :=
  { isfile := fun s => s == "root/a/b/AndroidTest.xml",
    robo := fun m => m.moduleClass.getD [] == ["ROBOLECTRIC_TEST"] }

def envFalse : Env := { isfile := fun _ => false, robo := fun _ => false }

def envTrue : Env := { isfile := fun _ => true, robo := fun _ => false }

def barRec : ModInfo := { name := some "Bar", installed := some ["x"] }

def miBar : ModuleInfo := ModuleInfo.build [("Bar", barRec)] "root"

def emptyMi : ModuleInfo := ModuleInfo.build [] "root"

def configOnlyRec : ModInfo := { testConfig := some ["c"] }

def variantRecord : ModInfo := { name := some "B", path := some ["p"] }

def goodRecord : ModInfo := { name := some "A", path := some ["p"] }

def miRobo : ModuleInfo := ModuleInfo.build [("FooTests_Robo", roboRec)] "root"

set_option maxRecDepth 4000

theorem dlookup_cons {β : Type} (k k₀ : String) (v : β)
    (rest : List (String × β)) :
    dlookup k ((k₀, v) :: rest) = if k₀ = k then some v else dlookup k rest := by
  simp [dlookup, beq_iff_eq]

theorem bucket_pmAppend (pti : List (String × List ModInfo)) (p : String)
    (m : ModInfo) (q : String) :
    bucket (pmAppend pti p m) q =
      if q = p then bucket pti q ++ [m] else bucket pti q := by
  induction pti with
  | nil =>
    by_cases h : q = p
    · subst h; simp [bucket, pmAppend, dlookup_cons, dlookup]
    · have h' : ¬p = q := fun e => h e.symm
      simp [bucket, pmAppend, dlookup_cons, dlookup, h, h']
  | cons kv rest ih =>
    obtain ⟨k₀, ms⟩ := kv
    by_cases hk : k₀ = p
    · subst hk
      by_cases hq : k₀ = q
      · subst hq
        simp [bucket, pmAppend, dlookup_cons, dlookup] at ih ⊢
      · have hq' : ¬q = k₀ := fun e => hq e.symm
        simp [bucket, pmAppend, dlookup_cons, dlookup, hq, hq']
    · by_cases hq : k₀ = q
      · subst hq
        simp [bucket, pmAppend, dlookup_cons, dlookup, hk] at ih ⊢
      · simp [bucket, pmAppend, dlookup_cons, dlookup, hk, hq] at ih ⊢
        exact ih

theorem bucket_pathsFold_of_mem (ps : List String) (m x : ModInfo) (q : String)
    (acc : List (String × List ModInfo)) (h : x ∈ bucket acc q) :
    x ∈ bucket (ps.foldl (fun a p => pmAppend a p m) acc) q := by
  induction ps generalizing acc with
  | nil => exact h
  | cons p ps ih =>
    simp only [List.foldl_cons]
    apply ih
    rw [bucket_pmAppend]
    split
    · exact List.mem_append_left _ h
    · exact h

theorem bucket_pathsFold_self (ps : List String) (m : ModInfo) (p : String)
    (hp : p ∈ ps) :
    ∀ acc, m ∈ bucket (ps.foldl (fun a q => pmAppend a q m) acc) p := by
  induction ps with
  | nil => cases hp
  | cons q ps ih =>
    intro acc
    simp only [List.foldl_cons]
    rcases List.mem_cons.mp hp with h | hmem
    · subst h
      apply bucket_pathsFold_of_mem
      rw [bucket_pmAppend]
      simp
    · exact ih hmem _

theorem bucket_pathsFold_elim (ps : List String) (m x : ModInfo) (q : String) :
    ∀ acc, x ∈ bucket (ps.foldl (fun a p => pmAppend a p m) acc) q →
      x ∈ bucket acc q ∨ x = m := by
  induction ps with
  | nil => intro acc h; exact Or.inl h
  | cons p ps ih =>
    intro acc h
    simp only [List.foldl_cons] at h
    rcases ih _ h with h' | h'
    · rw [bucket_pmAppend] at h'
      split at h'
      · rcases List.mem_append.mp h' with h'' | h''
        · exact Or.inl h''
        · exact Or.inr (List.mem_singleton.mp h'')
      · exact Or.inl h'
    · exact Or.inr h'

theorem bucket_addEntry_of_mem (acc : List (String × List ModInfo))
    (k : String) (v x : ModInfo) (q : String) (h : x ∈ bucket acc q) :
    x ∈ bucket (addEntry acc k v) q := by
  unfold addEntry
  split
  · exact bucket_pathsFold_of_mem _ _ _ _ _ h
  · exact h

theorem bucket_addEntry_self (acc : List (String × List ModInfo))
    (k : String) (v : ModInfo) (p : String)
    (hk : (k == v.name.getD "") = true) (hp : p ∈ v.path.getD []) :
    { v with name := some k } ∈ bucket (addEntry acc k v) p := by
  unfold addEntry
  rw [if_pos hk]
  exact bucket_pathsFold_self _ _ _ hp acc

theorem bucket_addEntry_elim (acc : List (String × List ModInfo))
    (k : String) (v x : ModInfo) (q : String)
    (h : x ∈ bucket (addEntry acc k v) q) :
    x ∈ bucket acc q ∨
      ((k == v.name.getD "") = true ∧ x = { v with name := some k }) := by
  unfold addEntry at h
  by_cases hk : (k == v.name.getD "") = true
  · rw [if_pos hk] at h
    rcases bucket_pathsFold_elim _ _ _ _ _ h with h' | h'
    · exact Or.inl h'
    · exact Or.inr ⟨hk, h'⟩
  · rw [if_neg hk] at h
    exact Or.inl h

theorem bucket_entriesFold_of_mem (l : List (String × ModInfo)) (x : ModInfo)
    (q : String) :
    ∀ acc, x ∈ bucket acc q →
      x ∈ bucket (l.foldl (fun a kv => addEntry a kv.1 kv.2) acc) q := by
  induction l with
  | nil => intro acc h; exact h
  | cons kv l ih =>
    intro acc h
    exact ih _ (bucket_addEntry_of_mem _ _ _ _ _ h)

theorem bucket_entriesFold_self (l : List (String × ModInfo)) (k : String)
    (v : ModInfo) (p : String) (hmem : (k, v) ∈ l)
    (hk : (k == v.name.getD "") = true) (hp : p ∈ v.path.getD []) :
    ∀ acc, { v with name := some k } ∈
      bucket (l.foldl (fun a kv => addEntry a kv.1 kv.2) acc) p := by
  induction l with
  | nil => cases hmem
  | cons kv l ih =>
    intro acc
    simp only [List.foldl_cons]
    rcases List.mem_cons.mp hmem with h | h
    · subst h
      exact bucket_entriesFold_of_mem _ _ _ _
        (bucket_addEntry_self _ _ _ _ hk hp)
    · exact ih h _

theorem bucket_entriesFold_elim (l : List (String × ModInfo)) (x : ModInfo)
    (q : String) :
    ∀ acc, x ∈ bucket (l.foldl (fun a kv => addEntry a kv.1 kv.2) acc) q →
      x ∈ bucket acc q ∨
        ∃ k v, (k, v) ∈ l ∧ (k == v.name.getD "") = true ∧
          x = { v with name := some k } := by
  induction l with
  | nil => intro acc h; exact Or.inl h
  | cons kv l ih =>
    intro acc h
    simp only [List.foldl_cons] at h
    rcases ih _ h with h' | h'
    · rcases bucket_addEntry_elim _ _ _ _ _ h' with h'' | ⟨hk, hx⟩
      · exact Or.inl h''
      · exact Or.inr ⟨kv.1, kv.2, List.mem_cons_self _ _, hk, hx⟩
    · rcases h' with ⟨k, v, hmem, hk, hx⟩
      exact Or.inr ⟨k, v, List.mem_cons_of_mem _ hmem, hk, hx⟩

theorem entriesFold_filter (l : List (String × ModInfo)) :
    ∀ acc, l.foldl (fun a kv => addEntry a kv.1 kv.2) acc =
      (l.filter (fun kv => kv.1 == kv.2.name.getD "")).foldl
        (fun a kv => addEntry a kv.1 kv.2) acc := by
  induction l with
  | nil => intro _; rfl
  | cons kv l ih =>
    intro acc
    by_cases h : (kv.1 == kv.2.name.getD "") = true
    · simp only [List.filter_cons, if_pos h, List.foldl_cons]
      exact ih _
    · simp only [List.filter_cons, if_neg h, List.foldl_cons]
      have ha : addEntry acc kv.1 kv.2 = acc := by
        unfold addEntry
        rw [if_neg h]
      rw [ha]
      exact ih _

/-- Claim C2: for every module name `n` whose record `r` in the name index
has `r.name == n`, and for every path `p` in the record's paths, `n` appears
in `get_module_names p` after construction. -/
theorem index_consistency (raw : List (String × ModInfo)) (root : String)
    (n : String) (r : ModInfo) (p : String) (hmem : (n, r) ∈ raw)
    (hname : r.name = some n) (hp : p ∈ r.path.getD []) :
    some n ∈ (ModuleInfo.build raw root).get_module_names p := by
  have hk : (n == r.name.getD "") = true := by rw [hname]; simp
  have hb := bucket_entriesFold_self raw n r p hmem hk hp []
  simp only [ModuleInfo.build, ModuleInfo.get_module_names]
  refine List.mem_map.mpr ⟨{ r with name := some n }, ?_, rfl⟩
  exact hb

theorem index_consistency_witness :
    some "Foo" ∈ mi0.get_module_names "a/b" :=
  index_consistency [("Foo", fooRec), ("FooTests_Robo", roboRec)] "root"
    "Foo" fooRec "a/b" (by decide) (by decide) (by decide)

/-- Claim C5: a name-index entry whose embedded name disagrees with its key
contributes nothing to the path index: the path index equals the one built
from the agreeing entries alone, and every record in every bucket originates
from an agreeing entry (stored with its trusted key as name). -/
theorem variant_records_excluded :
    (∀ raw, get_path_to_module_info raw =
        get_path_to_module_info
          (raw.filter (fun kv => kv.1 == kv.2.name.getD ""))) ∧
    (∀ raw p x, x ∈ bucket (get_path_to_module_info raw) p →
        ∃ k v, (k, v) ∈ raw ∧ (k == v.name.getD "") = true ∧
          x = { v with name := some k }) := by
  constructor
  · intro raw
    exact entriesFold_filter raw []
  · intro raw p x h
    rcases bucket_entriesFold_elim raw x p [] h with h' | h'
    · simp [bucket, dlookup] at h'
    · exact h'

theorem variant_records_excluded_witness :
    ∃ k v, (k, v) ∈ [("Foo", fooRec), ("FooTests_Robo", roboRec)] ∧
      (k == v.name.getD "") = true ∧ fooRec = { v with name := some k } :=
  variant_records_excluded.2 [("Foo", fooRec), ("FooTests_Robo", roboRec)]
    "a/b" fooRec (by decide)

/-- Claim C9: on a module name or path absent from its index, every query
returns its documented soft value: `is_module` false, `get_module_info`
`none`, `get_paths` and `get_module_names` the empty list,
`is_robolectric_test` and `is_auto_gen_test_config` false, and
`get_robolectric_test_name` `none`; all queries are total functions. -/
theorem unknown_key_totality (mi : ModuleInfo) (env : Env) (n p : String)
    (hn : dlookup n mi.name_to_module_info = none)
    (hp : dlookup p mi.path_to_module_info = none) :
    mi.is_module (some n) = false ∧
    mi.get_module_info (some n) = none ∧
    mi.get_paths n = [] ∧
    mi.get_module_names p = [] ∧
    mi.is_robolectric_test env (some n) = false ∧
    mi.is_auto_gen_test_config (some n) = false ∧
    mi.get_robolectric_test_name env (some n) = none := by
  have h1 : get_module_info_opt mi (some n) = none := by
    simp [get_module_info_opt, hn]
  have h7 : mi.get_robolectric_test_name env (some n) = none := by
    simp [ModuleInfo.get_robolectric_test_name, h1]
  refine ⟨?_, ?_, ?_, ?_, ?_, ?_, h7⟩
  · simp [ModuleInfo.is_module, h1]
  · simp [ModuleInfo.get_module_info, h1]
  · simp [ModuleInfo.get_paths, hn]
  · simp [ModuleInfo.get_module_names, hp]
  · simp [ModuleInfo.is_robolectric_test, h1, h7, truthyStr]
  · simp [ModuleInfo.is_auto_gen_test_config, ModuleInfo.is_module, h1]

theorem unknown_key_totality_witness :
    emptyMi.is_module (some "x") = false ∧
    emptyMi.get_module_info (some "x") = none ∧
    emptyMi.get_paths "x" = [] ∧
    emptyMi.get_module_names "y" = [] ∧
    emptyMi.is_robolectric_test envFalse (some "x") = false ∧
    emptyMi.is_auto_gen_test_config (some "x") = false ∧
    emptyMi.get_robolectric_test_name envFalse (some "x") = none :=
  unknown_key_totality emptyMi envFalse "x" "y" (by decide) (by decide)

/-- Claim C1: `is_testable_module` follows the first-match rule: false on an
absent or empty record; true when the record is installed and
`has_test_config` holds; otherwise true when `is_robolectric_test` holds on
the record's name; otherwise false — in particular an installed record with
neither a test config nor robolectric status is not testable. -/
theorem is_testable_module_first_match :
    (∀ (mi : ModuleInfo) (env : Env) (mod_info : Option ModInfo),
        mi.is_testable_module env mod_info = specIsTestable mi env mod_info) ∧
    (∀ (mi : ModuleInfo) (env : Env) (m : ModInfo),
        (m.installed.getD []).isEmpty = false →
        mi.has_test_config env m = false →
        mi.is_robolectric_test env m.name = false →
        mi.is_testable_module env (some m) = false) := by
  constructor
  · intro mi env mo
    cases mo with
    | none => rfl
    | some m =>
      simp only [ModuleInfo.is_testable_module, specIsTestable]
      cases h1 : m.truthy <;>
        cases h2 : (!(m.installed.getD []).isEmpty &&
          mi.has_test_config env m) <;>
          cases h3 : mi.is_robolectric_test env m.name <;>
            simp [h1, h2, h3]
  · intro mi env m hi hc hr
    simp [ModuleInfo.is_testable_module, hi, hc, hr]

theorem is_testable_module_first_match_witness :
    miBar.is_testable_module envFalse (some barRec) = false :=
  is_testable_module_first_match.2 miBar envFalse barRec
    (by decide) (by decide) (by decide)

/-- Claim C3: `get_robolectric_test_name` returns `none` on an unknown or
pathless module; otherwise it consults only the first path of the record,
scans that path's bucket in bucket order, and returns the first name whose
record passes the robolectric capability check, else `none` — as captured by
`specRoboName`, whose right-hand side never touches any path after the
first. -/
theorem get_robolectric_test_name_spec (mi : ModuleInfo) (env : Env)
    (n : String) :
    mi.get_robolectric_test_name env (some n) = specRoboName mi env n := by
  simp only [ModuleInfo.get_robolectric_test_name, specRoboName,
    get_module_info_opt]
  cases h : dlookup n mi.name_to_module_info with
  | none => rfl
  | some info =>
    cases ht : info.truthy with
    | true => simp [ht]
    | false =>
      cases hpath : info.path with
      | some ps =>
        exfalso
        unfold ModInfo.truthy at ht
        rw [hpath] at ht
        simp at ht
      | none => simp [hpath]

/-- Claim C4: `has_test_config` is the ordered disjunction of its three
sources — an explicit `test_config` file under the root, then the
conventional `AndroidTest.xml` under a module path, then the auto-generated
flag looked up by name — and when an earlier source succeeds the result is
true whatever the later sources would say: with an explicit config the
module paths and both indexes are irrelevant, and with either on-disk source
the indexes (hence the auto-gen lookup) are irrelevant. -/
theorem has_test_config_ordered_sources :
    (∀ (mi : ModuleInfo) (env : Env) (m : ModInfo),
        mi.has_test_config env m =
          (specExplicitConfig env mi.root_dir m ||
            specConventionConfig env mi.root_dir m ||
            mi.is_auto_gen_test_config m.name)) ∧
    (∀ (env : Env) (root : String) (m : ModInfo)
        (nmi : List (String × ModInfo))
        (pti : List (String × List ModInfo)) (ps : Option (List String)),
        specExplicitConfig env root m = true →
        ModuleInfo.has_test_config ⟨nmi, pti, root⟩ env
          { m with path := ps } = true) ∧
    (∀ (env : Env) (root : String) (m : ModInfo)
        (nmi : List (String × ModInfo))
        (pti : List (String × List ModInfo)),
        (specExplicitConfig env root m ||
          specConventionConfig env root m) = true →
        ModuleInfo.has_test_config ⟨nmi, pti, root⟩ env m = true) := by
  refine ⟨?_, ?_, ?_⟩
  · intro mi env m
    rfl
  · intro env root m nmi pti ps h1
    show (specExplicitConfig env root { m with path := ps } ||
      specConventionConfig env root { m with path := ps } ||
      ModuleInfo.is_auto_gen_test_config ⟨nmi, pti, root⟩
        ({ m with path := ps } : ModInfo).name) = true
    rw [show specExplicitConfig env root { m with path := ps } = true
      from h1]
    rfl
  · intro env root m nmi pti h1
    show (specExplicitConfig env root m ||
      specConventionConfig env root m ||
      ModuleInfo.is_auto_gen_test_config ⟨nmi, pti, root⟩ m.name) = true
    cases hA : specExplicitConfig env root m with
    | true => simp [hA]
    | false =>
      have hB : specConventionConfig env root m = true := by
        rw [hA] at h1
        simpa using h1
      simp [hA, hB]

theorem has_test_config_ordered_sources_witness :
    ModuleInfo.has_test_config ⟨[], [], "root"⟩ envTrue configOnlyRec
      = true :=
  has_test_config_ordered_sources.2.2 envTrue "root" configOnlyRec [] []
    (by decide)

/-- Claim C6 as stated is false: an entry whose embedded name disagrees with
its key is skipped by the variant filter before the normalizing assignment
runs, so its embedded name survives construction unchanged — here the entry
stored under key "A" still carries embedded name "B" after the build. -/
theorem name_normalization_counterexample :
    dlookup "A"
        (ModuleInfo.build [("A", variantRecord)] "root").name_to_module_info
      = some variantRecord ∧ variantRecord.name ≠ some "A" := by
  constructor
  · decide
  · decide

/-- Claim C6, amended: after the Index Builder runs, each name-index entry
holds `normRecord` of its raw record: an entry whose embedded name (defaulted
to the empty string) equals its key and which lists at least one path has its
name field overwritten with the trusted iteration key, and every other entry
— in particular one with an incorrect embedded name — is left unchanged. -/
theorem name_normalization_amended :
    (∀ raw root k m,
        (k, m) ∈ (ModuleInfo.build raw root).name_to_module_info ↔
          ∃ m₀, (k, m₀) ∈ raw ∧ m = normRecord k m₀) ∧
    (∀ k m₀, (k == m₀.name.getD "" && !(m₀.path.getD []).isEmpty) = true →
        (normRecord k m₀).name = some k) ∧
    (∀ k m₀, (k == m₀.name.getD "" && !(m₀.path.getD []).isEmpty) = false →
        normRecord k m₀ = m₀) := by
  refine ⟨?_, ?_, ?_⟩
  · intro raw root k m
    simp only [ModuleInfo.build, normalizeNames, List.mem_map]
    constructor
    · rintro ⟨⟨k₀, m₀⟩, hmem, heq⟩
      obtain ⟨hk, hm⟩ := Prod.mk.injEq .. ▸ heq
      exact ⟨m₀, hk ▸ hmem, hm.symm ▸ hk ▸ rfl⟩
    · rintro ⟨m₀, hmem, rfl⟩
      exact ⟨(k, m₀), hmem, rfl⟩
  · intro k m₀ h
    simp [normRecord, h]
  · intro k m₀ h
    simp [normRecord, h]

theorem name_normalization_amended_witness :
    (normRecord "A" goodRecord).name = some "A" :=
  name_normalization_amended.2.1 "A" goodRecord (by decide)

/-- Claim C7: `is_auto_gen_test_config` is false on an unknown module and on
an absent or empty `auto_test_config` field, and otherwise returns the
field's first element — `specAutoGen`. -/
theorem is_auto_gen_test_config_spec (mi : ModuleInfo) (n : String) :
    mi.is_auto_gen_test_config (some n) = specAutoGen mi n := by
  simp only [ModuleInfo.is_auto_gen_test_config, ModuleInfo.is_module,
    get_module_info_opt, specAutoGen]
  cases h : dlookup n mi.name_to_module_info with
  | none => rfl
  | some m =>
    cases ha : m.autoTestConfig with
    | none => simp [ha]
    | some l => cases l <;> simp [ha]

theorem foldl_insertIf_mono {α β : Type} [DecidableEq β]
    (c₁ c₂ : α → Bool) (f : α → β) (hc : ∀ a, c₁ a = true → c₂ a = true) :
    ∀ (l : List α) (s₁ s₂ : Finset β), s₁ ⊆ s₂ →
      l.foldl (fun acc a => if c₁ a then insert (f a) acc else acc) s₁ ⊆
        l.foldl (fun acc a => if c₂ a then insert (f a) acc else acc) s₂ := by
  intro l
  induction l with
  | nil => intro s₁ s₂ h; exact h
  | cons a l ih =>
    intro s₁ s₂ h
    simp only [List.foldl_cons]
    apply ih
    by_cases h₁ : c₁ a = true
    · rw [if_pos h₁, if_pos (hc a h₁)]
      exact Finset.insert_subset_insert _ h
    · rw [if_neg h₁]
      by_cases h₂ : c₂ a = true
      · rw [if_pos h₂]
        exact h.trans (Finset.subset_insert _ _)
      · rw [if_neg h₂]
        exact h

/-- Claim C8: over the same indexes and file-existence environment, every
module name collected by `get_testable_modules` for a suite is also
collected when no suite filter is given. -/
theorem testable_modules_suite_subset (mi : ModuleInfo) (env : Env)
    (s : String) (x : Option String)
    (hx : x ∈ mi.get_testable_modules env (some s)) :
    x ∈ mi.get_testable_modules env none := by
  have estep₁ : (fun (acc : Finset (Option String)) (kv : String × ModInfo) =>
      if mi.is_testable_module env (some kv.2) then
        if truthyStr (some s) then
          if is_suite_in_compatibility_suites ((some s).getD "") kv.2 then
            insert kv.2.name acc
          else acc
        else insert kv.2.name acc
      else acc) =
      (fun acc kv =>
        if (mi.is_testable_module env (some kv.2) &&
            (!truthyStr (some s) ||
              is_suite_in_compatibility_suites s kv.2)) then
          insert kv.2.name acc
        else acc) := by
    funext acc kv
    cases h1 : mi.is_testable_module env (some kv.2) <;>
      cases h2 : truthyStr (some s) <;>
        cases h3 : is_suite_in_compatibility_suites s kv.2 <;>
          simp [h1, h2, h3]
  have estep₂ : (fun (acc : Finset (Option String)) (kv : String × ModInfo) =>
      if mi.is_testable_module env (some kv.2) then
        if truthyStr none then
          if is_suite_in_compatibility_suites ((none : Option String).getD "")
              kv.2 then
            insert kv.2.name acc
          else acc
        else insert kv.2.name acc
      else acc) =
      (fun acc kv =>
        if mi.is_testable_module env (some kv.2) then insert kv.2.name acc
        else acc) := by
    funext acc kv
    simp [truthyStr]
  unfold ModuleInfo.get_testable_modules at hx ⊢
  rw [estep₁] at hx
  rw [estep₂]
  exact foldl_insertIf_mono _ _ _
    (fun kv h => by
      simp only [Bool.and_eq_true] at h
      exact h.1)
    mi.name_to_module_info ∅ ∅ (Finset.Subset.refl ∅) hx

theorem testable_modules_suite_subset_witness :
    some "Foo" ∈ mi0.get_testable_modules env0 none :=
  testable_modules_suite_subset mi0 env0 "sweet" (some "Foo") (by decide)

theorem find_first_true {α : Type} (pred : α → Bool) (l₁ : List α) (a : α)
    (l₂ : List α) (h₁ : ∀ x ∈ l₁, pred x = false) (h₂ : pred a = true) :
    List.find? pred (l₁ ++ a :: l₂) = some a := by
  induction l₁ with
  | nil =>
    rw [List.nil_append]
    exact List.find?_cons_of_pos _ h₂
  | cons y ys ih =>
    have hy : pred y = false := h₁ y (List.mem_cons_self _ _)
    rw [List.cons_append, List.find?_cons_of_neg _ (by simp [hy])]
    exact ih (fun x hx => h₁ x (List.mem_cons_of_mem _ hx))

/-- Claim C10 (implicit): the robolectric sibling search does not exclude
the queried module itself — when the queried module's record is itself the
first robolectric-classified record in the bucket of its first path,
`get_robolectric_test_name` returns the queried name. -/
theorem robolectric_self_resolution (mi : ModuleInfo) (env : Env) (n : String)
    (r : ModInfo) (p : String) (rest : List String)
    (l₁ l₂ : List (Option String))
    (hr : dlookup n mi.name_to_module_info = some r)
    (ht : r.truthy = true)
    (hp : r.path.getD [] = p :: rest)
    (hnames : mi.get_module_names p = l₁ ++ some n :: l₂)
    (hsibs : ∀ x ∈ l₁,
      is_robolectric_module env (get_module_info_opt mi x) = false)
    (hself :
      is_robolectric_module env (get_module_info_opt mi (some n)) = true) :
    mi.get_robolectric_test_name env (some n) = some n := by
  have key : mi.get_robolectric_test_name env (some n) =
      (List.find?
        (fun mod => is_robolectric_module env (get_module_info_opt mi mod))
        (mi.get_module_names p)).join := by
    unfold ModuleInfo.get_robolectric_test_name get_module_info_opt
    simp [hr, ht, hp]
  rw [key, hnames, find_first_true _ l₁ (some n) l₂ hsibs hself]
  rfl

theorem robolectric_self_resolution_witness :
    miRobo.get_robolectric_test_name env0 (some "FooTests_Robo") =
      some "FooTests_Robo" :=
  robolectric_self_resolution miRobo env0 "FooTests_Robo" roboRec "a/b" []
    [] [] (by decide) (by decide) (by decide) (by decide)
    (by intro x hx; cases hx) (by decide)
